import Mathlib

/-!
# Verification of the cheatsheet-generator layout core

A shallow embedding of the pagination and layout-flow engine of the
`cheatsheet-generator` repository: the entry model, the grouping engine,
the height estimator, the flow planner (`PDFGenerator._build_content`),
the page estimator (`PDFGenerator.estimate_pages`), and the YAML
structure checks of `YAMLParser.parse_dict` / `YAMLParser.validate_yaml`.

Python floats are modelled by `ℚ` (the computations involved are sums,
products and one division, so the rational value is the intended one),
Python dicts that preserve insertion order are modelled by association
lists, and exceptions by `Except`.
-/

namespace CheatsheetGen

/-- An entry of the cheat sheet (`Hotkey` in `models.py`).  The Python
field `section` is a Lean keyword, hence `sectionName` here. -/
structure Hotkey where
  key : String
  description : String
  sectionName : String
  subsection : String
  deriving DecidableEq, Repr

/-- Modelled from the spec: `models.py` is not among the provided source
files.  Per the data-model section and `tests/test_models.py`, `Hotkey`
construction fails with `ValueError("Key, description, and section are
required")` when `key`, `description` or `section` is empty, and the
`subsection` field defaults to the empty string; callers that omit it
pass `""` here. -/
def mkHotkey (key description sectionName subsection : String) : Except String Hotkey :=
  if key = "" ∨ description = "" ∨ sectionName = "" then
    Except.error "Key, description, and section are required"
  else
    Except.ok ⟨key, description, sectionName, subsection⟩

/-- Layout configuration (`CheatSheetConfig` in `models.py`).  Numeric
fields are rationals standing for Python ints/floats; `columns` is an
integer.  Defaults are the ones attested by the spec and the tests;
fields whose defaults the spec does not state carry no default and every
theorem below quantifies over them. -/
structure CheatSheetConfig where
  title : String := "Hotkey Cheat Sheet"
  font_size : ℚ := 7
  header_font_size : ℚ := 12
  columns : ℤ := 5
  margin : ℚ
  row_height : ℚ := 10
  section_spacing : ℚ
  subsection_spacing : ℚ
  deriving DecidableEq, Repr

/-- A section, as the grouping engine presents it to the generator: an
ordered association list from subsection name to the entries of that
subsection. -/
abbrev Subsections := List (String × List Hotkey)

/-- `PDFGenerator._estimate_section_height`, the loop: starting from the
accumulated height `acc`, each subsection adds a header row
(`font_size + 8`) unless it is named `"General"`, then
`len(hotkeys) * row_height`, then `subsection_spacing`. -/
def sectionHeightLoop (cfg : CheatSheetConfig) (acc : ℚ) : Subsections → ℚ
  | [] => acc
  | p :: rest =>
      sectionHeightLoop cfg
        (acc + (if p.1 ≠ "General" then cfg.font_size + 8 else 0)
             + p.2.length * cfg.row_height + cfg.subsection_spacing) rest

/-- `PDFGenerator._estimate_section_height`: section header row
(`header_font_size + 15`), the per-subsection loop, and a final
`section_spacing`. -/
def estimate_section_height (cfg : CheatSheetConfig) (subs : Subsections) : ℚ :=
  sectionHeightLoop cfg (cfg.header_font_size + 15) subs + cfg.section_spacing

/-- The per-subsection height contribution, as the spec's algorithm
states it. -/
def subsectionHeightTerm (cfg : CheatSheetConfig) (p : String × List Hotkey) : ℚ :=
  (if p.1 ≠ "General" then cfg.font_size + 8 else 0)
    + p.2.length * cfg.row_height + cfg.subsection_spacing

theorem sectionHeightLoop_eq (cfg : CheatSheetConfig) (acc : ℚ) (subs : Subsections) :
    sectionHeightLoop cfg acc subs = acc + (subs.map (subsectionHeightTerm cfg)).sum := by
  induction subs generalizing acc with
  | nil => simp [sectionHeightLoop]
  | cons p rest ih =>
      simp only [sectionHeightLoop, ih, List.map_cons, List.sum_cons, subsectionHeightTerm]
      ring

/-- C2: `estimate_section_height` computes exactly the additive model of
the spec: `(header_font_size + 15)` plus, for each subsection in order,
`(font_size + 8` if the subsection is not named `"General"`, else `0)`
plus `entry_count * row_height` plus `subsection_spacing`, plus a final
`section_spacing`. -/
theorem estimate_section_height_formula (cfg : CheatSheetConfig) (subs : Subsections) :
    estimate_section_height cfg subs =
      cfg.header_font_size + 15
        + (subs.map (fun p =>
            (if p.1 ≠ "General" then cfg.font_size + 8 else 0)
              + p.2.length * cfg.row_height + cfg.subsection_spacing)).sum
        + cfg.section_spacing := by
  simp only [estimate_section_height, sectionHeightLoop_eq, subsectionHeightTerm]
  rfl

/-- C5: `Hotkey` construction fails precisely when `key`, `description`
or `section` is empty (and then yields the validation error message
before any layout stage sees the entry), and succeeds, preserving all
four fields, precisely when the three required fields are non-empty. -/
theorem mkHotkey_ok_iff (k d s sub : String) :
    (mkHotkey k d s sub = Except.error "Key, description, and section are required"
        ↔ (k = "" ∨ d = "" ∨ s = ""))
    ∧ (mkHotkey k d s sub = Except.ok ⟨k, d, s, sub⟩ ↔ (k ≠ "" ∧ d ≠ "" ∧ s ≠ "")) := by
  constructor
  · constructor
    · intro h
      by_contra hc
      push_neg at hc
      simp [mkHotkey, hc.1, hc.2.1, hc.2.2] at h
    · intro h
      simp [mkHotkey, h]
  · constructor
    · intro h
      by_contra hc
      rw [not_and_or, not_and_or] at hc
      rcases hc with hk | hd | hs
      · simp at hk; simp [mkHotkey, hk] at h
      · simp at hd; simp [mkHotkey, hd] at h
      · simp at hs; simp [mkHotkey, hs] at h
    · intro h
      simp [mkHotkey, h.1, h.2.1, h.2.2]

/-! ## The Flow Planner (`PDFGenerator._build_content`) -/

/-- A flowable content block, as handed to the renderer: a title, a
section header, a subsection header, a hotkey table, or a vertical
spacer of a given height. -/
inductive Flowable where
  | title : String → Flowable
  | sectionHeader : String → Flowable
  | subsectionHeader : String → Flowable
  | table : List Hotkey → Flowable
  | spacer : ℚ → Flowable
  deriving DecidableEq, Repr

/-- An output block of the flow planner: either a single flowable block
(free to split across columns/pages) or a `KeepTogether` of flowables
(an atomic unit the renderer must not split). -/
inductive Block where
  | flow : Flowable → Block
  | keepTogether : List Flowable → Block
  deriving DecidableEq, Repr

/-- Whether a block is atomic (a `KeepTogether`). -/
def Block.isAtomic : Block → Bool
  | Block.flow _ => false
  | Block.keepTogether _ => true

/-- The blocks one subsection contributes inside a section: its header
(unless it is named `"General"`), then — only when `_create_hotkey_table`
returns a table, i.e. when the entry list is non-empty — the table and a
`subsection_spacing` spacer. -/
def subsectionBlocks (cfg : CheatSheetConfig) (p : String × List Hotkey) : List Flowable :=
  (if p.1 ≠ "General" then [Flowable.subsectionHeader p.1] else [])
    ++ (if p.2 = [] then [] else [Flowable.table p.2, Flowable.spacer cfg.subsection_spacing])

/-- The loop of `_build_content` that fills `section_content` after the
section header: subsection blocks in input order. -/
def sectionBody (cfg : CheatSheetConfig) : Subsections → List Flowable
  | [] => []
  | p :: rest => subsectionBlocks cfg p ++ sectionBody cfg rest

/-- `section_content`: the section header (rendered in upper case by the
style, the text itself is the name), a 3-unit spacer, then the
subsection blocks. -/
def sectionContent (cfg : CheatSheetConfig) (name : String) (subs : Subsections) :
    List Flowable :=
  Flowable.sectionHeader name :: Flowable.spacer 3 :: sectionBody cfg subs

/-- `subsection_content` of the LARGE branch for the subsection at index
`i`: the section header and its spacer are attached to the first
subsection (`i == 0`), then the subsection's own blocks. -/
def largeSubBlock (cfg : CheatSheetConfig) (name : String) (i : ℕ)
    (p : String × List Hotkey) : List Flowable :=
  (if i = 0 then [Flowable.sectionHeader name, Flowable.spacer 3] else [])
    ++ subsectionBlocks cfg p

/-- The `enumerate` loop of the LARGE branch: each non-empty
`subsection_content` becomes one atomic `KeepTogether` block. -/
def largeBlocksAux (cfg : CheatSheetConfig) (name : String) (i : ℕ) :
    Subsections → List Block
  | [] => []
  | p :: rest =>
      (if (largeSubBlock cfg name i p).length > 0
        then [Block.keepTogether (largeSubBlock cfg name i p)] else [])
        ++ largeBlocksAux cfg name (i + 1) rest

/-- The full output of the LARGE branch of `_build_content`. -/
def largeBlocks (cfg : CheatSheetConfig) (name : String) (subs : Subsections) : List Block :=
  largeBlocksAux cfg name 0 subs

/-- The blocks `_build_content` appends to `section_items` for one
section: route on the estimated height (`> 200`: one atomic block per
non-vacuous subsection; `< 100`: the whole `section_content` as one
atomic block; otherwise `section_content` flows freely), then a trailing
`section_spacing` spacer. -/
def buildSection (cfg : CheatSheetConfig) (name : String) (subs : Subsections) : List Block :=
  (if estimate_section_height cfg subs > 200 then
      largeBlocks cfg name subs
    else if estimate_section_height cfg subs < 100 then
      [Block.keepTogether (sectionContent cfg name subs)]
    else
      (sectionContent cfg name subs).map Block.flow)
    ++ [Block.flow (Flowable.spacer cfg.section_spacing)]

/-- The loop of `_build_content` over all sections. -/
def buildSections (cfg : CheatSheetConfig) : List (String × Subsections) → List Block
  | [] => []
  | s :: rest => buildSection cfg s.1 s.2 ++ buildSections cfg rest

/-- `_build_content`: the document title, a 12-unit spacer, then the
per-section blocks. -/
def build_content (cfg : CheatSheetConfig) (docTitle : String)
    (sections : List (String × Subsections)) : List Block :=
  Block.flow (Flowable.title docTitle) :: Block.flow (Flowable.spacer 12)
    :: buildSections cfg sections

/-- Whether the flowable `t` occurs in a list of flowables. -/
def flowsHave (t : Flowable) : List Flowable → Bool
  | [] => false
  | b :: rest => decide (b = t) || flowsHave t rest

/-- Whether the flowable `t` occurs in a list of blocks, looking inside
`KeepTogether` blocks. -/
def blocksHave (t : Flowable) : List Block → Bool
  | [] => false
  | Block.flow b :: rest => decide (b = t) || blocksHave t rest
  | Block.keepTogether l :: rest => flowsHave t l || blocksHave t rest

lemma largeBlocksAux_atomic (cfg : CheatSheetConfig) (name : String) :
    ∀ (i : ℕ) (subs : Subsections) (b : Block),
      b ∈ largeBlocksAux cfg name i subs → b.isAtomic = true := by
  intro i subs
  induction subs generalizing i with
  | nil => intro b hb; simp [largeBlocksAux] at hb
  | cons p rest ih =>
      intro b hb
      simp only [largeBlocksAux, List.mem_append] at hb
      rcases hb with hb | hb
      · split at hb
        · simp at hb; subst hb; rfl
        · simp at hb
      · exact ih (i + 1) b hb

lemma largeSubBlock_length_pos (cfg : CheatSheetConfig) (name : String) (i : ℕ)
    (p : String × List Hotkey) (h : p.2 ≠ []) : (largeSubBlock cfg name i p).length > 0 := by
  simp only [largeSubBlock, subsectionBlocks, if_neg h, List.length_append]
  split_ifs <;> simp

lemma largeBlocksAux_length (cfg : CheatSheetConfig) (name : String)
    (subs : Subsections) (hne : ∀ p ∈ subs, p.2 ≠ []) :
    ∀ i : ℕ, (largeBlocksAux cfg name i subs).length = subs.length := by
  induction subs with
  | nil => intro i; rfl
  | cons p rest ih =>
      intro i
      have hp : p.2 ≠ [] := hne p (List.mem_cons_self p rest)
      have hrest : ∀ q ∈ rest, q.2 ≠ [] := fun q hq => hne q (List.mem_cons_of_mem p hq)
      have hpos := largeSubBlock_length_pos cfg name i p hp
      simp only [largeBlocksAux, List.length_append, List.length_cons, if_pos hpos,
        ih hrest (i + 1), List.length_nil]
      omega

/-- C1: the Flow Planner routes on the estimated height exactly at the
stated thresholds: `h > 200` uses the LARGE policy (one atomic
`KeepTogether` block per subsection — exactly one per subsection whenever
every subsection has entries), `h < 100` uses the SMALL policy (the
whole section as one atomic block), and every other height — including
the boundary values `h = 100` and `h = 200` — uses the MEDIUM policy
(the section content as plain flowable, non-atomic blocks). -/
theorem flow_planner_routing (cfg : CheatSheetConfig) (name : String) (subs : Subsections) :
    (estimate_section_height cfg subs > 200 →
      buildSection cfg name subs
          = largeBlocks cfg name subs ++ [Block.flow (Flowable.spacer cfg.section_spacing)]
        ∧ (∀ b ∈ largeBlocks cfg name subs, b.isAtomic = true)
        ∧ ((∀ p ∈ subs, p.2 ≠ []) → (largeBlocks cfg name subs).length = subs.length))
    ∧ (estimate_section_height cfg subs < 100 →
      buildSection cfg name subs
          = [Block.keepTogether (sectionContent cfg name subs),
             Block.flow (Flowable.spacer cfg.section_spacing)]
        ∧ (Block.keepTogether (sectionContent cfg name subs)).isAtomic = true)
    ∧ (100 ≤ estimate_section_height cfg subs → estimate_section_height cfg subs ≤ 200 →
      buildSection cfg name subs
          = (sectionContent cfg name subs).map Block.flow
              ++ [Block.flow (Flowable.spacer cfg.section_spacing)]
        ∧ ∀ b ∈ (sectionContent cfg name subs).map Block.flow, b.isAtomic = false) := by
  refine ⟨fun hL => ⟨?_, ?_, ?_⟩, fun hS => ⟨?_, rfl⟩, fun h1 h2 => ⟨?_, ?_⟩⟩
  · simp [buildSection, if_pos hL]
  · exact fun b hb => largeBlocksAux_atomic cfg name 0 subs b hb
  · exact fun hne => largeBlocksAux_length cfg name subs hne 0
  · have hnotL : ¬ estimate_section_height cfg subs > 200 := by linarith
    simp [buildSection, if_neg hnotL, if_pos hS]
  · have hnotL : ¬ estimate_section_height cfg subs > 200 := by linarith
    have hnotS : ¬ estimate_section_height cfg subs < 100 := by linarith
    simp [buildSection, if_neg hnotL, if_neg hnotS]
  · intro b hb
    rcases List.mem_map.mp hb with ⟨f, _, rfl⟩
    rfl

/-- A concrete entry used by the closed witness theorems below. -/
def hkW : Hotkey := ⟨"Ctrl+C", "Copy", "Edit", "Clipboard"⟩

/-- Configuration whose empty section estimates to exactly 100. -/
def cfg100 : CheatSheetConfig := { margin := 20, section_spacing := 73, subsection_spacing := 4 }

/-- Configuration whose empty section estimates to exactly 200. -/
def cfg200 : CheatSheetConfig := { margin := 20, section_spacing := 173, subsection_spacing := 4 }

/-- Configuration forcing one sample section above the 200 threshold. -/
def cfgLarge : CheatSheetConfig :=
  { margin := 20, section_spacing := 200, subsection_spacing := 4 }

/-- Configuration keeping one sample section below the 100 threshold. -/
def cfgSmall : CheatSheetConfig := { margin := 20, section_spacing := 5, subsection_spacing := 4 }

theorem flow_planner_routing_witness :
    (100 ≤ estimate_section_height cfg100 [] ∧ estimate_section_height cfg100 [] ≤ 200
      ∧ buildSection cfg100 "Edit" []
          = (sectionContent cfg100 "Edit" []).map Block.flow
              ++ [Block.flow (Flowable.spacer cfg100.section_spacing)])
    ∧ (100 ≤ estimate_section_height cfg200 [] ∧ estimate_section_height cfg200 [] ≤ 200
      ∧ buildSection cfg200 "Edit" []
          = (sectionContent cfg200 "Edit" []).map Block.flow
              ++ [Block.flow (Flowable.spacer cfg200.section_spacing)])
    ∧ (estimate_section_height cfgLarge [("Nav", [hkW])] > 200
      ∧ buildSection cfgLarge "Edit" [("Nav", [hkW])]
          = largeBlocks cfgLarge "Edit" [("Nav", [hkW])]
              ++ [Block.flow (Flowable.spacer cfgLarge.section_spacing)]
      ∧ (largeBlocks cfgLarge "Edit" [("Nav", [hkW])]).length = 1)
    ∧ (estimate_section_height cfgSmall [("Nav", [hkW])] < 100
      ∧ buildSection cfgSmall "Edit" [("Nav", [hkW])]
          = [Block.keepTogether (sectionContent cfgSmall "Edit" [("Nav", [hkW])]),
             Block.flow (Flowable.spacer cfgSmall.section_spacing)]) := by
  have h100 : estimate_section_height cfg100 [] = 100 := by
    norm_num [estimate_section_height, sectionHeightLoop, cfg100]
  have h200 : estimate_section_height cfg200 [] = 200 := by
    norm_num [estimate_section_height, sectionHeightLoop, cfg200]
  have hnav : ("Nav" : String) ≠ "General" := by decide
  have hL : estimate_section_height cfgLarge [("Nav", [hkW])] > 200 := by
    norm_num [estimate_section_height, sectionHeightLoop, cfgLarge, hnav]
  have hS : estimate_section_height cfgSmall [("Nav", [hkW])] < 100 := by
    norm_num [estimate_section_height, sectionHeightLoop, cfgSmall, hnav]
  refine ⟨⟨by norm_num [h100], by norm_num [h100], ?_⟩,
    ⟨by norm_num [h200], by norm_num [h200], ?_⟩, ⟨hL, ?_, ?_⟩, hS, ?_⟩
  · exact ((flow_planner_routing cfg100 "Edit" []).2.2 (by norm_num [h100])
      (by norm_num [h100])).1
  · exact ((flow_planner_routing cfg200 "Edit" []).2.2 (by norm_num [h200])
      (by norm_num [h200])).1
  · exact (((flow_planner_routing cfgLarge "Edit" [("Nav", [hkW])]).1) hL).1
  · have := (((flow_planner_routing cfgLarge "Edit" [("Nav", [hkW])]).1) hL).2.2
      (by intro p hp; simp at hp; subst hp; simp [hkW])
    simpa using this
  · exact (((flow_planner_routing cfgSmall "Edit" [("Nav", [hkW])]).2.1) hS).1

lemma flowsHave_iff (t : Flowable) (l : List Flowable) : flowsHave t l = true ↔ t ∈ l := by
  induction l with
  | nil => simp [flowsHave]
  | cons b rest ih =>
      simp only [flowsHave, Bool.or_eq_true, decide_eq_true_eq, ih, List.mem_cons]
      exact or_congr eq_comm Iff.rfl

lemma flowsHave_append (t : Flowable) (l₁ l₂ : List Flowable) :
    flowsHave t (l₁ ++ l₂) = (flowsHave t l₁ || flowsHave t l₂) := by
  induction l₁ with
  | nil => simp [flowsHave]
  | cons b rest ih => simp [flowsHave, ih, Bool.or_assoc]

lemma blocksHave_append (t : Flowable) (l₁ l₂ : List Block) :
    blocksHave t (l₁ ++ l₂) = (blocksHave t l₁ || blocksHave t l₂) := by
  induction l₁ with
  | nil => simp [blocksHave]
  | cons b rest ih => cases b <;> simp [blocksHave, ih, Bool.or_assoc]

lemma blocksHave_map_flow (t : Flowable) (l : List Flowable) :
    blocksHave t (l.map Block.flow) = flowsHave t l := by
  induction l with
  | nil => rfl
  | cons b rest ih => simp [blocksHave, flowsHave, ih]

lemma subsectionBlocks_no_empty_table (cfg : CheatSheetConfig) (p : String × List Hotkey) :
    flowsHave (Flowable.table []) (subsectionBlocks cfg p) = false := by
  rw [subsectionBlocks, flowsHave_append]
  by_cases h2 : p.2 = [] <;> by_cases h1 : p.1 ≠ "General" <;>
    simp [h1, h2, flowsHave]

lemma sectionBody_no_empty_table (cfg : CheatSheetConfig) (subs : Subsections) :
    flowsHave (Flowable.table []) (sectionBody cfg subs) = false := by
  induction subs with
  | nil => rfl
  | cons p rest ih =>
      rw [sectionBody, flowsHave_append, subsectionBlocks_no_empty_table, ih]
      rfl

lemma sectionContent_no_empty_table (cfg : CheatSheetConfig) (name : String)
    (subs : Subsections) :
    flowsHave (Flowable.table []) (sectionContent cfg name subs) = false := by
  simp [sectionContent, flowsHave, sectionBody_no_empty_table]

lemma largeBlocksAux_no_empty_table (cfg : CheatSheetConfig) (name : String)
    (subs : Subsections) :
    ∀ i : ℕ, blocksHave (Flowable.table []) (largeBlocksAux cfg name i subs) = false := by
  induction subs with
  | nil => intro i; rfl
  | cons p rest ih =>
      intro i
      rw [largeBlocksAux, blocksHave_append, ih (i + 1)]
      have hsub : flowsHave (Flowable.table []) (largeSubBlock cfg name i p) = false := by
        rw [largeSubBlock, flowsHave_append, subsectionBlocks_no_empty_table cfg p]
        by_cases h : i = 0 <;> simp [h, flowsHave]
      split
      · simp [blocksHave, hsub]
      · rfl

lemma sectionBody_header_present (cfg : CheatSheetConfig) (subs : Subsections)
    (sub : String) (hmem : (sub, ([] : List Hotkey)) ∈ subs) (hG : sub ≠ "General") :
    flowsHave (Flowable.subsectionHeader sub) (sectionBody cfg subs) = true := by
  induction subs with
  | nil => simp at hmem
  | cons p rest ih =>
      rw [sectionBody, flowsHave_append]
      rcases List.mem_cons.mp hmem with heq | hmem'
      · subst heq
        rw [subsectionBlocks, flowsHave_append]
        simp [hG, flowsHave]
      · rw [ih hmem']
        simp

lemma largeBlocksAux_header_present (cfg : CheatSheetConfig) (name : String)
    (subs : Subsections) (sub : String) (hmem : (sub, ([] : List Hotkey)) ∈ subs)
    (hG : sub ≠ "General") :
    ∀ i : ℕ, blocksHave (Flowable.subsectionHeader sub) (largeBlocksAux cfg name i subs) = true := by
  induction subs with
  | nil => simp at hmem
  | cons p rest ih =>
      intro i
      rw [largeBlocksAux, blocksHave_append]
      rcases List.mem_cons.mp hmem with heq | hmem'
      · subst heq
        have hin : flowsHave (Flowable.subsectionHeader sub) (largeSubBlock cfg name i (sub, [])) = true := by
          rw [largeSubBlock, flowsHave_append, subsectionBlocks, flowsHave_append]
          simp [hG, flowsHave]
        have hlen : (largeSubBlock cfg name i (sub, ([] : List Hotkey))).length > 0 := by
          rcases (flowsHave_iff _ _).mp hin with hm
          exact List.length_pos.mpr (List.ne_nil_of_mem hm)
        rw [if_pos hlen]
        simp [blocksHave, hin]
      · rw [ih hmem' (i + 1)]
        simp

/-- C4 (amended): for every subsection whose entry list is empty the
Flow Planner emits no table block — no zero-row table ever occurs in a
section's output — but it does **not** omit the subsection header: an
empty subsection named other than `"General"` still contributes its
header block, under every policy. -/
theorem empty_subsection_blocks (cfg : CheatSheetConfig) (name : String) (subs : Subsections) :
    blocksHave (Flowable.table []) (buildSection cfg name subs) = false
    ∧ ∀ sub : String, (sub, ([] : List Hotkey)) ∈ subs → sub ≠ "General" →
        blocksHave (Flowable.subsectionHeader sub) (buildSection cfg name subs) = true := by
  constructor
  · rw [buildSection, blocksHave_append]
    have htail : blocksHave (Flowable.table [])
        [Block.flow (Flowable.spacer cfg.section_spacing)] = false := by
      simp [blocksHave]
    rw [htail]
    split
    · rw [largeBlocks, largeBlocksAux_no_empty_table]; rfl
    · split
      · simp [blocksHave, sectionContent_no_empty_table]
      · rw [blocksHave_map_flow, sectionContent_no_empty_table]; rfl
  · intro sub hmem hG
    rw [buildSection, blocksHave_append]
    have hbody : flowsHave (Flowable.subsectionHeader sub) (sectionContent cfg name subs) = true := by
      simp [sectionContent, flowsHave, sectionBody_header_present cfg subs sub hmem hG]
    split
    · rw [largeBlocks, largeBlocksAux_header_present cfg name subs sub hmem hG 0]
      rfl
    · split
      · simp [blocksHave, hbody]
      · rw [blocksHave_map_flow, hbody]
        rfl

theorem empty_subsection_blocks_witness :
    (("Nav", ([] : List Hotkey)) ∈ [("Nav", ([] : List Hotkey))]
      ∧ ("Nav" : String) ≠ "General")
    ∧ blocksHave (Flowable.table [])
        (buildSection cfgSmall "Edit" [("Nav", [])]) = false
    ∧ blocksHave (Flowable.subsectionHeader "Nav")
        (buildSection cfgSmall "Edit" [("Nav", [])]) = true :=
  ⟨⟨List.mem_singleton.mpr rfl, by decide⟩,
    (empty_subsection_blocks cfgSmall "Edit" [("Nav", [])]).1,
    (empty_subsection_blocks cfgSmall "Edit" [("Nav", [])]).2 "Nav"
      (List.mem_singleton.mpr rfl) (by decide)⟩

/-- C4 (counterexample): with a small concrete configuration, a section
holding a single empty subsection named `"Nav"`: the claim says the
empty subsection contributes no output blocks at all, yet its subsection
header block appears in the output, and the output differs from that of
the same section without the empty subsection. -/
theorem empty_subsection_emits_header :
    blocksHave (Flowable.subsectionHeader "Nav")
        (buildSection cfgSmall "Edit" [("Nav", [])]) = true
    ∧ buildSection cfgSmall "Edit" [("Nav", [])] ≠ buildSection cfgSmall "Edit" [] := by
  have hnav : ("Nav" : String) ≠ "General" := by decide
  have h1 : estimate_section_height cfgSmall [("Nav", [])] = 51 := by
    norm_num [estimate_section_height, sectionHeightLoop, cfgSmall, hnav]
  have h2 : estimate_section_height cfgSmall [] = 32 := by
    norm_num [estimate_section_height, sectionHeightLoop, cfgSmall]
  have hb1 : buildSection cfgSmall "Edit" [("Nav", [])]
      = [Block.keepTogether (sectionContent cfgSmall "Edit" [("Nav", [])]),
         Block.flow (Flowable.spacer cfgSmall.section_spacing)] := by
    rw [buildSection, if_neg (by rw [h1]; norm_num), if_pos (by rw [h1]; norm_num)]
    rfl
  have hb2 : buildSection cfgSmall "Edit" []
      = [Block.keepTogether (sectionContent cfgSmall "Edit" []),
         Block.flow (Flowable.spacer cfgSmall.section_spacing)] := by
    rw [buildSection, if_neg (by rw [h2]; norm_num), if_pos (by rw [h2]; norm_num)]
    rfl
  constructor
  · rw [hb1]
    simp [blocksHave, flowsHave, sectionContent, sectionBody, subsectionBlocks]
  · rw [hb1, hb2]
    simp [sectionContent, sectionBody, subsectionBlocks]

/-! ## Monotonicity of the height estimate (C8) -/

lemma subsectionHeightTerm_mono (cfg : CheatSheetConfig) (hr : 0 ≤ cfg.row_height)
    (p q : String × List Hotkey) (hname : p.1 = q.1) (hlen : p.2.length ≤ q.2.length) :
    subsectionHeightTerm cfg p ≤ subsectionHeightTerm cfg q := by
  rw [subsectionHeightTerm, subsectionHeightTerm, hname]
  have : (p.2.length : ℚ) * cfg.row_height ≤ (q.2.length : ℚ) * cfg.row_height :=
    mul_le_mul_of_nonneg_right (by exact_mod_cast hlen) hr
  linarith

/-- C8 (amended): for every configuration whose `row_height` is
non-negative — the code multiplies entry counts by `row_height`, so with
a negative configured `row_height` the estimate decreases as entries are
added — `estimate_section_height` is monotonically non-decreasing in
entry count: with the same subsection names in the same order, entrywise
larger entry lists never decrease the estimated height. -/
theorem estimate_section_height_monotone (cfg : CheatSheetConfig) (s t : Subsections)
    (hr : 0 ≤ cfg.row_height)
    (h : List.Forall₂ (fun p q => p.1 = q.1 ∧ p.2.length ≤ q.2.length) s t) :
    estimate_section_height cfg s ≤ estimate_section_height cfg t := by
  rw [estimate_section_height, estimate_section_height, sectionHeightLoop_eq,
    sectionHeightLoop_eq]
  have hsum : (s.map (subsectionHeightTerm cfg)).sum ≤ (t.map (subsectionHeightTerm cfg)).sum := by
    induction h with
    | nil => exact le_refl _
    | cons hpq _ ih =>
        simp only [List.map_cons, List.sum_cons]
        exact add_le_add (subsectionHeightTerm_mono cfg hr _ _ hpq.1 hpq.2) ih
  linarith

theorem estimate_section_height_monotone_witness :
    (0 ≤ cfgSmall.row_height
      ∧ List.Forall₂ (fun p q => p.1 = q.1 ∧ p.2.length ≤ q.2.length)
          [("General", ([] : List Hotkey))] [("General", [hkW])])
    ∧ estimate_section_height cfgSmall [("General", [])]
        ≤ estimate_section_height cfgSmall [("General", [hkW])] :=
  ⟨⟨by norm_num [cfgSmall], List.Forall₂.cons ⟨rfl, by simp⟩ List.Forall₂.nil⟩,
    estimate_section_height_monotone cfgSmall _ _ (by norm_num [cfgSmall])
      (List.Forall₂.cons ⟨rfl, by simp⟩ List.Forall₂.nil)⟩

/-- A configuration with a negative `row_height`; nothing in the code or
the data model prevents it. -/
def cfgNegRow : CheatSheetConfig :=
  { margin := 20, row_height := -1, section_spacing := 0, subsection_spacing := 0 }

/-- C8 (counterexample): with `row_height = -1`, adding an entry to the
single subsection strictly decreases the estimated section height, so
`estimate_section_height` is not monotonically non-decreasing in entry
count for every fixed configuration. -/
theorem estimate_section_height_not_monotone :
    estimate_section_height cfgNegRow [("General", [hkW])]
      < estimate_section_height cfgNegRow [("General", [])] := by
  norm_num [estimate_section_height, sectionHeightLoop, cfgNegRow]

/-! ## The Grouping Engine (`CheatSheet.get_sections`, modelled from the spec) -/

/-- Ordered association-list update, modelling insertion into a Python
dict that preserves insertion order: an existing key keeps its place and
has its value updated by `f`; a missing key is appended at the end with
value `f d`. -/
def updateAList {β : Type} (l : List (String × β)) (k : String) (f : β → β) (d : β) :
    List (String × β) :=
  match l with
  | [] => [(k, f d)]
  | p :: rest => if p.1 = k then (p.1, f p.2) :: rest else p :: updateAList rest k f d

/-- Ordered association-list lookup (Python dict indexing). -/
def alookup {β : Type} : List (String × β) → String → Option β
  | [], _ => none
  | p :: rest, k => if p.1 = k then some p.2 else alookup rest k

/-- The subsection bucket an entry goes into: its subsection name, or
the literal bucket `"General"` when the subsection is empty. -/
def bucketName (h : Hotkey) : String :=
  if h.subsection = "" then "General" else h.subsection

/-- The grouped view: ordered mapping from section name to ordered
mapping from subsection name to entries. -/
abbrev Grouped := List (String × Subsections)

/-- Modelled from the spec: `models.py`'s `CheatSheet.get_sections` is
not among the provided source files.  Per the spec's Grouping Engine
contract, one step of its loop files the entry under its section and
under its subsection bucket (`"General"` for an empty subsection),
appending the entry at the end of the bucket and creating section and
bucket at the end of their mappings when first seen. -/
def groupStep (acc : Grouped) (h : Hotkey) : Grouped :=
  updateAList acc h.sectionName
    (fun subs => updateAList subs (bucketName h) (fun es => es ++ [h]) []) []

/-- The grouping loop over the entry list. -/
def groupAux (acc : Grouped) : List Hotkey → Grouped
  | [] => acc
  | h :: rest => groupAux (groupStep acc h) rest

/-- Modelled from the spec: `group(entries)` /
`CheatSheet.get_sections`. -/
def group (entries : List Hotkey) : Grouped := groupAux [] entries

/-- Accumulating first-seen-order deduplication. -/
def firstSeenAux (acc : List String) : List String → List String
  | [] => acc
  | s :: rest => firstSeenAux (if s ∈ acc then acc else acc ++ [s]) rest

/-- The names of a list in order of first occurrence, duplicates
dropped: the reference order against which the grouped view is
checked. -/
def firstSeen (l : List String) : List String := firstSeenAux [] l

/-- The subsection names recorded under section `s` of a grouped view,
in order. -/
def subNames (g : Grouped) (s : String) : List String :=
  ((alookup g s).getD []).map Prod.fst

lemma updateAList_map_fst {β : Type} (l : List (String × β)) (k : String) (f : β → β) (d : β) :
    (updateAList l k f d).map Prod.fst =
      if k ∈ l.map Prod.fst then l.map Prod.fst else l.map Prod.fst ++ [k] := by
  induction l with
  | nil => simp [updateAList]
  | cons p rest ih =>
      by_cases hpk : p.1 = k
      · simp [updateAList, hpk]
      · have : ¬ k = p.1 := fun hh => hpk hh.symm
        simp only [updateAList, if_neg hpk, List.map_cons, List.mem_cons, ih]
        by_cases hk : k ∈ rest.map Prod.fst
        · simp [hk, this]
        · simp [hk, this]

lemma alookup_updateAList_self {β : Type} (l : List (String × β)) (k : String)
    (f : β → β) (d : β) :
    alookup (updateAList l k f d) k = some (f ((alookup l k).getD d)) := by
  induction l with
  | nil => simp [updateAList, alookup]
  | cons p rest ih =>
      by_cases hpk : p.1 = k
      · simp [updateAList, hpk, alookup]
      · simp [updateAList, hpk, alookup, ih]

lemma alookup_updateAList_other {β : Type} (l : List (String × β)) (k k' : String)
    (f : β → β) (d : β) (hne : k' ≠ k) :
    alookup (updateAList l k f d) k' = alookup l k' := by
  have hkk' : ¬ k = k' := fun hh => hne hh.symm
  induction l with
  | nil => simp [updateAList, alookup, hkk']
  | cons p rest ih =>
      by_cases hpk : p.1 = k
      · simp [updateAList, hpk, alookup, hkk']
      · simp [updateAList, hpk, alookup, ih]

lemma groupAux_sections_order (entries : List Hotkey) :
    ∀ acc : Grouped,
      (groupAux acc entries).map Prod.fst
        = firstSeenAux (acc.map Prod.fst) (entries.map Hotkey.sectionName) := by
  induction entries with
  | nil => intro acc; rfl
  | cons h rest ih =>
      intro acc
      rw [groupAux, ih (groupStep acc h), List.map_cons, firstSeenAux]
      congr 1
      exact updateAList_map_fst acc h.sectionName _ []

lemma groupAux_subsections_order (entries : List Hotkey) :
    ∀ (acc : Grouped) (s : String),
      subNames (groupAux acc entries) s
        = firstSeenAux (subNames acc s)
            (((entries.filter (fun h => h.sectionName = s)).map bucketName)) := by
  induction entries with
  | nil => intro acc s; rfl
  | cons h rest ih =>
      intro acc s
      rw [groupAux, ih (groupStep acc h) s]
      by_cases hsec : h.sectionName = s
      · have hstep : subNames (groupStep acc h) s
            = if bucketName h ∈ subNames acc s
              then subNames acc s else subNames acc s ++ [bucketName h] := by
          rw [subNames, groupStep, hsec, alookup_updateAList_self]
          rw [Option.getD_some, updateAList_map_fst]
          rfl
        rw [hstep, List.filter_cons_of_pos (by simp [hsec]), List.map_cons, firstSeenAux]
      · have hstep : subNames (groupStep acc h) s = subNames acc s := by
          rw [subNames, groupStep,
            alookup_updateAList_other acc h.sectionName s _ [] (fun hh => hsec hh.symm)]
          rfl
        rw [hstep, List.filter_cons_of_neg (by simp [hsec])]

/-- C6: the grouped view lists sections in first-seen order of the
input entries, and inside every section it lists the subsection buckets
in first-seen order of that section's entries (an entry with empty
subsection counting as a sighting of `"General"`). -/
theorem grouping_first_seen_order (entries : List Hotkey) :
    (group entries).map Prod.fst = firstSeen (entries.map Hotkey.sectionName)
    ∧ ∀ s : String,
        subNames (group entries) s
          = firstSeen ((entries.filter (fun h => h.sectionName = s)).map bucketName) :=
  ⟨groupAux_sections_order entries [],
    fun s => groupAux_subsections_order entries [] s⟩

/-- Membership of an entry in the bucket `sub` of section `sec` of a
grouped view. -/
def inBucket (g : Grouped) (sec sub : String) (h : Hotkey) : Prop :=
  h ∈ (alookup ((alookup g sec).getD []) sub).getD []

lemma inBucket_groupStep (acc : Grouped) (e : Hotkey) (sec sub : String) (x : Hotkey)
    (hx : inBucket acc sec sub x) : inBucket (groupStep acc e) sec sub x := by
  by_cases hsec : e.sectionName = sec
  · rw [inBucket, groupStep, hsec, alookup_updateAList_self, Option.getD_some]
    by_cases hb : bucketName e = sub
    · rw [hb, alookup_updateAList_self, Option.getD_some]
      exact List.mem_append_left _ hx
    · rw [alookup_updateAList_other _ _ _ _ _ (fun hh => hb hh.symm)]
      exact hx
  · rw [inBucket, groupStep,
      alookup_updateAList_other _ _ _ _ _ (fun hh => hsec hh.symm)]
    exact hx

lemma inBucket_groupStep_self (acc : Grouped) (e : Hotkey) :
    inBucket (groupStep acc e) e.sectionName (bucketName e) e := by
  rw [inBucket, groupStep, alookup_updateAList_self, Option.getD_some,
    alookup_updateAList_self, Option.getD_some]
  exact List.mem_append_right _ (List.mem_singleton.mpr rfl)

lemma inBucket_groupAux (entries : List Hotkey) :
    ∀ (acc : Grouped) (sec sub : String) (x : Hotkey),
      inBucket acc sec sub x → inBucket (groupAux acc entries) sec sub x := by
  induction entries with
  | nil => intro acc sec sub x hx; exact hx
  | cons e rest ih =>
      intro acc sec sub x hx
      exact ih (groupStep acc e) sec sub x (inBucket_groupStep acc e sec sub x hx)

lemma mem_groupAux_bucket (entries : List Hotkey) :
    ∀ (acc : Grouped) (h : Hotkey), h ∈ entries →
      inBucket (groupAux acc entries) h.sectionName (bucketName h) h := by
  induction entries with
  | nil => intro acc h hmem; simp at hmem
  | cons e rest ih =>
      intro acc h hmem
      rcases List.mem_cons.mp hmem with heq | hmem'
      · subst heq
        exact inBucket_groupAux rest (groupStep acc h) _ _ h
          (inBucket_groupStep_self acc h)
      · exact ih (groupStep acc e) h hmem'

/-! ## The YAML structure layer (`parser.py`) -/

/-- The value found under one subsection key of a section mapping:
either a scalar (a direct key → description pair with no subsection) or
a nested mapping of key → description pairs. -/
inductive SubValue where
  | scalar : String → SubValue
  | table : List (String × String) → SubValue
  deriving DecidableEq, Repr

/-- Whether a subsection value is a scalar (not a nested mapping). -/
def SubValue.isScalar : SubValue → Bool
  | SubValue.scalar _ => true
  | SubValue.table _ => false

/-- The value found under one section key of the `sections` mapping: a
mapping of subsections, or anything that is not a mapping (represented
by its scalar text; `parse_dict` and `validate_yaml` only test the
shape). -/
inductive SectionValue where
  | scalar : String → SectionValue
  | sec : List (String × SubValue) → SectionValue
  deriving DecidableEq, Repr

/-- `isinstance(section_data, dict)`. -/
def SectionValue.isDict : SectionValue → Bool
  | SectionValue.scalar _ => false
  | SectionValue.sec _ => true

/-- The inner loop of `YAMLParser.parse_dict` over a nested subsection
mapping: one `Hotkey(key, description, section, subsection)` per
key/description pair, in order. -/
def parseTable (name sub : String) : List (String × String) → Except String (List Hotkey)
  | [] => Except.ok []
  | (k, d) :: rest => do
      let h ← mkHotkey k d name sub
      let hrest ← parseTable name sub rest
      Except.ok (h :: hrest)

/-- The loop of `parse_dict` over one section's items: a nested mapping
contributes its pairs under the named subsection; a scalar value is a
direct key → description pair constructed without a subsection (the
`Hotkey` default, the empty string). -/
def parseSubsections (name : String) : List (String × SubValue) → Except String (List Hotkey)
  | [] => Except.ok []
  | (subName, SubValue.table entries) :: rest => do
      let hs ← parseTable name subName entries
      let hrest ← parseSubsections name rest
      Except.ok (hs ++ hrest)
  | (subName, SubValue.scalar desc) :: rest => do
      let h ← mkHotkey subName desc name ""
      let hrest ← parseSubsections name rest
      Except.ok (h :: hrest)

/-- The outer loop of `parse_dict` over the `sections` mapping: a
section whose value is not a mapping is skipped (`continue`); the
others contribute their entries in order. -/
def parseSections : List (String × SectionValue) → Except String (List Hotkey)
  | [] => Except.ok []
  | (_, SectionValue.scalar _) :: rest => parseSections rest
  | (name, SectionValue.sec subs) :: rest => do
      let hs ← parseSubsections name subs
      let hrest ← parseSections rest
      Except.ok (hs ++ hrest)

lemma mkHotkey_ok_fields (k d s sub : String) (h : Hotkey)
    (hok : mkHotkey k d s sub = Except.ok h) : h = ⟨k, d, s, sub⟩ := by
  rw [mkHotkey] at hok
  split at hok
  · exact absurd hok (by simp)
  · exact (Except.ok.injEq _ _ ▸ congrArg id hok).symm ▸ by
      cases hok
      rfl

lemma parseSubsections_scalar_subsection (name : String) (subs : List (String × SubValue)) :
    ∀ hs : List Hotkey, (∀ p ∈ subs, p.2.isScalar = true) →
      parseSubsections name subs = Except.ok hs → ∀ h ∈ hs, h.subsection = "" := by
  induction subs with
  | nil =>
      intro hs _ hok h hmem
      rw [parseSubsections] at hok
      cases hok
      simp at hmem
  | cons p rest ih =>
      intro hs hsc hok h hmem
      rcases p with ⟨subName, v⟩
      cases v with
      | table entries =>
          have := hsc (subName, SubValue.table entries) (List.mem_cons_self _ _)
          simp [SubValue.isScalar] at this
      | scalar desc =>
          rw [parseSubsections] at hok
          cases hk : mkHotkey subName desc name "" with
          | error e => rw [hk] at hok; exact Except.noConfusion hok
          | ok h0 =>
              rw [hk] at hok
              cases hr : parseSubsections name rest with
              | error e => rw [hr] at hok; exact Except.noConfusion hok
              | ok hrest =>
                  rw [hr] at hok
                  have hok2 : (Except.ok (h0 :: hrest) : Except String (List Hotkey))
                      = Except.ok hs := hok
                  cases hok2
                  rcases List.mem_cons.mp hmem with heq | hmem'
                  · subst heq
                    rw [mkHotkey_ok_fields _ _ _ _ _ hk]
                  · exact ih hrest
                      (fun q hq => hsc q (List.mem_cons_of_mem _ hq)) hr h hmem'

/-- A concrete entry with empty subsection, used by witnesses. -/
def hkGen : Hotkey := ⟨"Ctrl+Z", "Undo", "Edit", ""⟩

/-- C7: an entry whose subsection is the empty string is filed by the
grouping engine under the bucket literally named `"General"` of its
section; and every key/description pair that `parse_dict` builds from a
scalar value sitting directly under a section (not inside a nested
mapping) gets the empty subsection — so it lands in `"General"`. -/
theorem empty_subsection_goes_to_general :
    (∀ (entries : List Hotkey) (h : Hotkey), h ∈ entries → h.subsection = "" →
        inBucket (group entries) h.sectionName "General" h)
    ∧ (∀ (name : String) (subs : List (String × SubValue)) (hs : List Hotkey),
        (∀ p ∈ subs, p.2.isScalar = true) → parseSubsections name subs = Except.ok hs →
        ∀ h ∈ hs, h.subsection = "") := by
  constructor
  · intro entries h hmem hempty
    have := mem_groupAux_bucket entries [] h hmem
    rwa [bucketName, if_pos hempty] at this
  · intro name subs hs hsc hok
    exact parseSubsections_scalar_subsection name subs hs hsc hok

theorem empty_subsection_goes_to_general_witness :
    (hkGen ∈ [hkGen] ∧ hkGen.subsection = ""
      ∧ inBucket (group [hkGen]) hkGen.sectionName "General" hkGen)
    ∧ (parseSubsections "Edit" [("Ctrl+Z", SubValue.scalar "Undo")] = Except.ok [hkGen]
      ∧ ∀ h ∈ [hkGen], h.subsection = "") := by
  have hparse : parseSubsections "Edit" [("Ctrl+Z", SubValue.scalar "Undo")]
      = Except.ok [hkGen] := by
    rw [parseSubsections, parseSubsections]
    rfl
  refine ⟨⟨List.mem_singleton.mpr rfl, rfl, ?_⟩, hparse, ?_⟩
  · exact (empty_subsection_goes_to_general).1 [hkGen] hkGen
      (List.mem_singleton.mpr rfl) rfl
  · exact (empty_subsection_goes_to_general).2 "Edit"
      [("Ctrl+Z", SubValue.scalar "Undo")] [hkGen]
      (by intro p hp; rw [List.mem_singleton.mp hp]; rfl) hparse

/-- C10: `parse_dict` never fails because of a section whose value is
not a mapping: such a section is skipped silently, contributing no
entries and no error, so the parse result — value or error — is exactly
that of the well-formed (mapping-valued) sections alone. -/
theorem non_mapping_sections_skipped (sections : List (String × SectionValue)) :
    parseSections sections = parseSections (sections.filter (fun p => p.2.isDict)) := by
  induction sections with
  | nil => rfl
  | cons p rest ih =>
      rcases p with ⟨name, v⟩
      cases v with
      | scalar s =>
          rw [parseSections, List.filter_cons_of_neg (by simp [SectionValue.isDict])]
          exact ih
      | sec subs =>
          rw [parseSections, List.filter_cons_of_pos (by simp [SectionValue.isDict]),
            parseSections, ih]

/-! ## `YAMLParser.validate_yaml` (C9) -/

/-- The `sections` value of the root mapping: either not a dictionary,
or a dictionary of sections. -/
inductive SectionsField where
  | notDict : SectionsField
  | dict : List (String × SectionValue) → SectionsField
  deriving DecidableEq, Repr

/-- The already-parsed root data handed to the structural validation
(the YAML syntax layer and file access are outside the core): either
not a dictionary, or a dictionary with or without a `"sections"` key. -/
inductive RootData where
  | notDict : RootData
  | dict : Option SectionsField → RootData
  deriving DecidableEq, Repr

/-- `f"Section '{name}' must be a dictionary"`. -/
def msgSectionNotDict (name : String) : String :=
  "Section \x27" ++ name ++ "\x27 must be a dictionary"

/-- `f"Section '{name}' is empty"`. -/
def msgSectionEmpty (name : String) : String :=
  "Section \x27" ++ name ++ "\x27 is empty"

/-- The per-section loop of `validate_yaml`: a non-mapping section adds
its message and continues; an empty mapping adds its message; a
non-empty mapping adds nothing.  All sections are visited. -/
def validateSections : List (String × SectionValue) → List String
  | [] => []
  | (name, SectionValue.scalar _) :: rest => msgSectionNotDict name :: validateSections rest
  | (name, SectionValue.sec subs) :: rest =>
      (if subs.isEmpty then [msgSectionEmpty name] else []) ++ validateSections rest

/-- `YAMLParser.validate_yaml` on already-parsed data: the early-return
checks on the root and the `sections` key, then the error-collecting
loop over the sections. -/
def validate_data : RootData → List String
  | RootData.notDict => ["Root element must be a dictionary"]
  | RootData.dict none => ["Missing \x27sections\x27 key"]
  | RootData.dict (some SectionsField.notDict) => ["\x27sections\x27 must be a dictionary"]
  | RootData.dict (some (SectionsField.dict sections)) => validateSections sections

/-- The error message one section contributes, as the spec describes
validation: `none` exactly for a well-formed (non-empty mapping)
section. -/
def sectionError (p : String × SectionValue) : Option String :=
  match p.2 with
  | SectionValue.scalar _ => some (msgSectionNotDict p.1)
  | SectionValue.sec [] => some (msgSectionEmpty p.1)
  | SectionValue.sec (_ :: _) => none

/-- Whether a section is invalid (not a mapping, or an empty one). -/
def isInvalidSection (p : String × SectionValue) : Bool :=
  match p.2 with
  | SectionValue.scalar _ => true
  | SectionValue.sec [] => true
  | SectionValue.sec (_ :: _) => false

/-- C9: on a root mapping whose `"sections"` value is a mapping,
`validate_yaml` collects one human-readable message per invalid sibling
section, in order — the result is exactly the per-section error of every
invalid section, and its length equals the number of invalid sections,
so no sibling error is dropped after the first. -/
theorem validate_collects_all_sibling_errors (sections : List (String × SectionValue)) :
    validate_data (RootData.dict (some (SectionsField.dict sections)))
        = sections.filterMap sectionError
    ∧ (validate_data (RootData.dict (some (SectionsField.dict sections)))).length
        = (sections.filter isInvalidSection).length := by
  have h2 : (sections.filterMap sectionError).length
      = (sections.filter isInvalidSection).length := by
    induction sections with
    | nil => rfl
    | cons p rest ih =>
        rcases p with ⟨name, v⟩
        cases v with
        | scalar s =>
            simp [List.filterMap_cons, List.filter_cons, sectionError, isInvalidSection, ih]
        | sec subs =>
            cases subs with
            | nil =>
                simp [List.filterMap_cons, List.filter_cons, sectionError, isInvalidSection, ih]
            | cons q qs =>
                simp [List.filterMap_cons, List.filter_cons, sectionError, isInvalidSection, ih]
  have h1 : validateSections sections = sections.filterMap sectionError := by
    clear h2
    induction sections with
    | nil => rfl
    | cons p rest ih =>
        rcases p with ⟨name, v⟩
        cases v with
        | scalar s => simp [validateSections, List.filterMap_cons, sectionError, ih]
        | sec subs =>
            cases subs with
            | nil => simp [validateSections, List.filterMap_cons, sectionError, ih]
            | cons q qs => simp [validateSections, List.filterMap_cons, sectionError, ih]
  have h1' : validate_data (RootData.dict (some (SectionsField.dict sections)))
      = sections.filterMap sectionError := h1
  exact ⟨h1', by rw [h1']; exact h2⟩

/-! ## The Page Estimator (`PDFGenerator.estimate_pages`, C3) -/

/-- The page height of the fixed landscape-A4 geometry, in points:
`landscape(A4)` has height `210 mm = 210 * 72 / 25.4 pt`. -/
def pageHeight : ℚ := 75600 / 127

/-- `usable_height` from `_calculate_layout`: page height minus the two
vertical margins. -/
def usableHeight (cfg : CheatSheetConfig) : ℚ := pageHeight - 2 * cfg.margin

/-- `PDFGenerator.estimate_pages`: the coarse global estimate — title
height 30, 15 per section header, 12 per subsection, `row_height` per
entry, `section_spacing` per section — divided by the column count and
the usable page height, rounded up, but at least one page. -/
def estimate_pages (cfg : CheatSheetConfig) (hotkeys : List Hotkey) : ℤ :=
  let sections := group hotkeys
  let total_height : ℚ :=
    30 + sections.length * 15
      + ((sections.map (fun s => s.2.length)).sum : ℚ) * 12
      + hotkeys.length * cfg.row_height
      + sections.length * cfg.section_spacing
  let effective_height := total_height / (cfg.columns : ℚ)
  max 1 ⌈effective_height / usableHeight cfg⌉

/-- C3: for a configuration with at least one column, `estimate_pages`
returns exactly
`max(1, ceil(((30 + 15*S + 12*SS + E*row_height + S*section_spacing) / columns) / (page_height - 2*margin)))`
where `S` is the number of sections, `SS` the total number of
subsections and `E` the total number of entries of the grouped view —
and in particular the result is an integer `≥ 1`, even with zero
entries. -/
theorem estimate_pages_formula (cfg : CheatSheetConfig) (hotkeys : List Hotkey)
    (hcols : 1 ≤ cfg.columns) :
    estimate_pages cfg hotkeys
        = max 1 ⌈((30 + 15 * ((group hotkeys).length : ℚ)
              + 12 * (((group hotkeys).map (fun s => s.2.length)).sum : ℚ)
              + (hotkeys.length : ℚ) * cfg.row_height
              + ((group hotkeys).length : ℚ) * cfg.section_spacing)
            / (cfg.columns : ℚ)) / (pageHeight - 2 * cfg.margin)⌉
    ∧ 1 ≤ estimate_pages cfg hotkeys := by
  constructor
  · simp only [estimate_pages]
    congr 2
    rw [usableHeight]
    ring
  · simp only [estimate_pages]
    exact le_max_left 1 _

theorem estimate_pages_formula_witness :
    (1 ≤ cfgSmall.columns) ∧ 1 ≤ estimate_pages cfgSmall [] :=
  ⟨by norm_num [cfgSmall],
    (estimate_pages_formula cfgSmall [] (by norm_num [cfgSmall])).2⟩

end CheatsheetGen
